import Mathlib

/-!
Verification development for the `newscheck` single-article fetch-and-normalize
worker (`src/python_worker/worker.py`).

The worker's pure logic is shallowly embedded here.  External collaborators are
modelled by their interfaces, exactly as the design document prescribes:

* the HTTP transport (`requests`) is a function from a URL to an optional
  response (document plus final URL), or a stream of body chunks;
* the HTML parser (BeautifulSoup) is modelled by the traversable structures
  `PubDoc` (anchors + canonical link, as used by
  `extract_publisher_url_from_google_news`) and `HNode` (an element/text tree,
  as used by `extract_main_text`);
* the specialized extraction engine (trafilatura) is an `Option String`;
* the machine-translation engine (deep-translator) is a
  `String → Option String` oracle, `none` meaning the engine raised.

The fragment of `urllib.parse` that the worker relies on (`urlparse`,
`parse_qs`, `unquote`, `urljoin`) is embedded as the `M`-suffixed functions
below, following the CPython semantics for the inputs the worker produces
(ASCII case folding; the IPv6-bracket `ValueError` of `urlparse` is not
modelled — every call site swallows that exception and returns its fallback,
which coincides with the embedding's behaviour on such inputs).
-/

namespace NewsCheck

/-! ### Basic string toolkit (Python string semantics on `List Char`) -/

/-- Characters treated as whitespace by Python's `str.strip()` (the ASCII part,
plus the common Unicode members NEL, NBSP; `strip` is only ever applied by the
worker to HTML-derived text). -/
def isPyS (c : Char) : Bool :=
  c == ' ' || c == '\t' || c == '\n' || c == '\r' || c == '\x0b' || c == '\x0c'
    || c == '\u0085' || c == ' '

/-- Python `str.lstrip()` on a character list. -/
def lstripL (l : List Char) : List Char := l.dropWhile isPyS

/-- Python `str.rstrip()` on a character list. -/
def rstripL (l : List Char) : List Char := (l.reverse.dropWhile isPyS).reverse

/-- Python `str.strip()` on a character list. -/
def pyStrip (l : List Char) : List Char := rstripL (lstripL l)

/-- Python `str.strip()` on a string. -/
def pyStripStr (s : String) : String := ⟨pyStrip s.data⟩

/-- ASCII lowercasing, as applied by the worker via `str.lower()` (the hosts it
compares against are ASCII). -/
def strLower (s : String) : String := ⟨s.data.map Char.toLower⟩

/-- Python `sub in s` (contiguous substring test) on character lists. -/
def infixOfL (pat l : List Char) : Bool := l.tails.any (fun t => pat.isPrefixOf t)

/-- Python `sub in s` on strings. -/
def strContainsStr (s sub : String) : Bool := infixOfL sub.data s.data

/-- Python `s.startswith(pre)` on strings. -/
def strStarts (s pre : String) : Bool := pre.data.isPrefixOf s.data

/-- Split a character list at the first occurrence of `c`; `none` when `c` does
not occur (models `str.split(c, 1)` / `str.find`). -/
def splitFirst (c : Char) (l : List Char) : Option (List Char × List Char) :=
  match l.findIdx? (· == c) with
  | some i => some (l.take i, l.drop (i + 1))
  | none => none

/-- Helper of `splitAll`: `acc` is the current field, reversed. -/
def splitAllGo (c : Char) : List Char → List Char → List (List Char)
  | acc, [] => [acc.reverse]
  | acc, x :: rest =>
    if x = c then acc.reverse :: splitAllGo c [] rest else splitAllGo c (x :: acc) rest

/-- Python `s.split(c)` (single-character separator) on character lists. -/
def splitAll (c : Char) (l : List Char) : List (List Char) := splitAllGo c [] l

/-- Join character lists with a separator (Python `sep.join`). -/
def joinSep (sep : List Char) : List (List Char) → List Char
  | [] => []
  | [x] => x
  | x :: y :: rest => x ++ sep ++ joinSep sep (y :: rest)

/-! ### Percent-decoding (`urllib.parse.unquote`, `errors='replace'`)

`unquote` splits the input into literal runs and maximal runs of `%XX` escapes;
each escape run is decoded as a UTF-8 byte sequence with invalid sequences
replaced by U+FFFD, and an invalid escape (`%` not followed by two hex digits)
passes through literally. -/

/-- Hex digit value, `none` for a non-hex character. -/
def hexVal (c : Char) : Option Nat :=
  if '0' ≤ c ∧ c ≤ '9' then some (c.toNat - '0'.toNat)
  else if 'a' ≤ c ∧ c ≤ 'f' then some (c.toNat - 'a'.toNat + 10)
  else if 'A' ≤ c ∧ c ≤ 'F' then some (c.toNat - 'A'.toNat + 10)
  else none

/-- Tokenize a string into literal characters (`Sum.inl`) and percent-escape
bytes (`Sum.inr`). -/
def pctTokens : List Char → List (Char ⊕ Nat)
  | '%' :: a :: b :: rest =>
    match hexVal a, hexVal b with
    | some x, some y => Sum.inr (16 * x + y) :: pctTokens rest
    | _, _ => Sum.inl '%' :: pctTokens (a :: b :: rest)
  | c :: rest => Sum.inl c :: pctTokens rest
  | [] => []

/-- Is `b` a UTF-8 continuation byte? -/
def isCont (b : Nat) : Bool := 0x80 ≤ b && b ≤ 0xBF

/-- UTF-8 decoding with replacement of invalid sequences by U+FFFD (models
`bytes.decode('utf-8', errors='replace')`; on a malformed multi-byte sequence
the replacement consumes the examined bytes, while CPython re-examines them, so
only the number of replacement characters on malformed escape garbage can
differ — no worker call site depends on that). -/
def utf8DR : List Nat → List Char
  | [] => []
  | b :: rest =>
    if b < 0x80 then
      Char.ofNat b :: utf8DR rest
    else if 0xC2 ≤ b ∧ b ≤ 0xDF then
      match rest with
      | b2 :: rest2 =>
        if isCont b2 then Char.ofNat ((b - 0xC0) * 64 + (b2 - 0x80)) :: utf8DR rest2
        else '�' :: utf8DR rest2
      | [] => ['�']
    else if 0xE0 ≤ b ∧ b ≤ 0xEF then
      match rest with
      | b2 :: b3 :: rest3 =>
        if (if b = 0xE0 then 0xA0 ≤ b2 && b2 ≤ 0xBF
            else if b = 0xED then 0x80 ≤ b2 && b2 ≤ 0x9F
            else isCont b2) && isCont b3 then
          Char.ofNat ((b - 0xE0) * 4096 + (b2 - 0x80) * 64 + (b3 - 0x80)) :: utf8DR rest3
        else '�' :: utf8DR rest3
      | _ => ['�']
    else if 0xF0 ≤ b ∧ b ≤ 0xF4 then
      match rest with
      | b2 :: b3 :: b4 :: rest4 =>
        if (if b = 0xF0 then 0x90 ≤ b2 && b2 ≤ 0xBF
            else if b = 0xF4 then 0x80 ≤ b2 && b2 ≤ 0x8F
            else isCont b2) && isCont b3 && isCont b4 then
          Char.ofNat ((b - 0xF0) * 262144 + (b2 - 0x80) * 4096 + (b3 - 0x80) * 64 + (b4 - 0x80))
            :: utf8DR rest4
        else '�' :: utf8DR rest4
      | _ => ['�']
    else '�' :: utf8DR rest

/-- Render the token stream: maximal escape-byte runs are UTF-8-decoded, literal
characters flush the pending run.  `acc` holds the pending bytes reversed. -/
def renderToks : List Nat → List (Char ⊕ Nat) → List Char
  | acc, [] => utf8DR acc.reverse
  | acc, Sum.inr b :: rest => renderToks (b :: acc) rest
  | acc, Sum.inl c :: rest => utf8DR acc.reverse ++ c :: renderToks [] rest

/-- Model of `urllib.parse.unquote(s, errors='replace')`. -/
def unquoteM (s : String) : String := ⟨renderToks [] (pctTokens s.data)⟩

/-- Model of `urllib.parse.unquote_plus`: `+` becomes a space, then unquote (the
shape used by `parse_qsl` on names and values). -/
def unquotePlus (s : String) : String :=
  unquoteM ⟨s.data.map (fun c => if c = '+' then ' ' else c)⟩

/-! ### `urllib.parse.urlsplit` / `urlparse` -/

/-- The split result of `urlsplit`. -/
structure SplitUrl where
  scheme : String
  netloc : String
  path : String
  query : String
  fragment : String
deriving DecidableEq, Repr

/-- The result of `urlparse` (adds the `params` component). -/
structure ParsedUrl where
  scheme : String
  netloc : String
  path : String
  params : String
  query : String
  fragment : String
deriving DecidableEq, Repr

/-- WHATWG C0-control-or-space predicate used by `urlsplit` input sanitizing. -/
def isC0Space (c : Char) : Bool := c.toNat ≤ 0x20

/-- Input sanitizing of `urlsplit`: strip leading C0-control/space characters,
then remove every tab, CR and LF. -/
def urlSanitize (l : List Char) : List Char :=
  (l.dropWhile isC0Space).filter (fun c => !(c == '\t' || c == '\r' || c == '\n'))

/-- Valid scheme characters (`urllib.parse.scheme_chars`). -/
def isSchemeChar (c : Char) : Bool := c.isAlphanum || c == '+' || c == '-' || c == '.'

/-- Model of `urllib.parse.urlsplit` (fragments allowed, no default scheme).
The IPv6 bracket validation error is not modelled; see the module comment. -/
def urlsplitM (u : String) : SplitUrl :=
  let l := urlSanitize u.data
  let schemeRest : List Char × List Char :=
    match l.findIdx? (· == ':') with
    | some i =>
      if 0 < i ∧ (l.headD ' ').isAlpha ∧ (l.take i).all isSchemeChar then
        ((l.take i).map Char.toLower, l.drop (i + 1))
      else ([], l)
    | none => ([], l)
  let rest := schemeRest.2
  let netlocRest : List Char × List Char :=
    if rest.take 2 = ['/', '/'] then
      ((rest.drop 2).takeWhile (fun c => !(c == '/' || c == '?' || c == '#')),
       (rest.drop 2).dropWhile (fun c => !(c == '/' || c == '?' || c == '#')))
    else ([], rest)
  let afterNetloc := netlocRest.2
  let beforeFragFrag : List Char × List Char :=
    match splitFirst '#' afterNetloc with
    | some (a, b) => (a, b)
    | none => (afterNetloc, [])
  let pathQuery : List Char × List Char :=
    match splitFirst '?' beforeFragFrag.1 with
    | some (a, b) => (a, b)
    | none => (beforeFragFrag.1, [])
  ⟨⟨schemeRest.1⟩, ⟨netlocRest.1⟩, ⟨pathQuery.1⟩, ⟨pathQuery.2⟩, ⟨beforeFragFrag.2⟩⟩

/-- The `;params` split of `urlparse`: parameters are taken from the last path
segment only. -/
def splitParamsL (p : List Char) : List Char × List Char :=
  if p.contains '/' then
    let lastSeg := (p.reverse.takeWhile (· ≠ '/')).reverse
    match lastSeg.findIdx? (· == ';') with
    | some m =>
      let cut := p.length - lastSeg.length + m
      (p.take cut, p.drop (cut + 1))
    | none => (p, [])
  else
    match splitFirst ';' p with
    | some (a, b) => (a, b)
    | none => (p, [])

/-- Model of `urllib.parse.urlparse`. -/
def urlparseM (u : String) : ParsedUrl :=
  let s := urlsplitM u
  let pp := splitParamsL s.path.data
  ⟨s.scheme, s.netloc, ⟨pp.1⟩, ⟨pp.2⟩, s.query, s.fragment⟩

/-! ### `urllib.parse.parse_qs` -/

/-- Model of `urllib.parse.parse_qsl` with the default
`keep_blank_values=False`: split on `&`, drop empty fields, drop fields without
`=` or with an empty value, decode `+` and percent escapes in names and
values. -/
def parseQslM (q : String) : List (String × String) :=
  (splitAll '&' q.data).filterMap (fun field =>
    if field = [] then none
    else
      match splitFirst '=' field with
      | none => none
      | some (n, v) =>
        if v = [] then none
        else some (unquotePlus ⟨n⟩, unquotePlus ⟨v⟩))

/-- First value registered for key `k` (`parse_qs(...)[k][0]`); `none` when the
key is absent from the parsed dictionary. -/
def qsLookup (l : List (String × String)) (k : String) : Option String :=
  (l.find? (fun p => p.1 = k)).map (·.2)

/-! ### `urllib.parse.urljoin` -/

/-- Schemes of `urllib.parse.uses_relative`. -/
def usesRelativeM : List String :=
  ["", "ftp", "http", "gopher", "nntp", "imap", "wais", "file", "https", "shttp",
   "mms", "prospero", "rtsp", "rtspu", "sftp", "svn", "svn+ssh", "ws", "wss"]

/-- Schemes of `urllib.parse.uses_netloc`. -/
def usesNetlocM : List String :=
  ["", "ftp", "http", "gopher", "nntp", "telnet", "imap", "wais", "file", "mms",
   "https", "shttp", "snews", "prospero", "rtsp", "rtspu", "rsync", "svn",
   "svn+ssh", "sftp", "nfs", "git", "git+ssh", "ws", "wss", "itms-services"]

/-- Python `s.split('/')` on a string. -/
def slashSplit (s : String) : List String := (splitAll '/' s.data).map (fun l => ⟨l⟩)

/-- Segment resolution of `urljoin` (CPython): merge the relative path with the
base path's directory and eliminate `.` and `..` segments. -/
def urljoinPath (bpath path : String) : String :=
  let baseParts := slashSplit bpath
  let baseParts := if baseParts.getLast? = some "" then baseParts else baseParts.dropLast
  let segments :=
    if strStarts path "/" then slashSplit path
    else
      let ps := baseParts ++ slashSplit path
      if ps.length ≤ 2 then ps
      else ps.take 1 ++ ((ps.drop 1).dropLast.filter (· ≠ "")) ++ [ps.getLast?.getD ""]
  let resolved := segments.foldl
    (fun acc seg =>
      if seg = ".." then acc.dropLast
      else if seg = "." then acc
      else acc ++ [seg]) []
  let resolved :=
    if segments.getLast? = some "." ∨ segments.getLast? = some ".." then resolved ++ [""]
    else resolved
  let joined : String := ⟨joinSep ['/'] (resolved.map String.data)⟩
  if joined = "" then "/" else joined

/-- Model of `urllib.parse.urlunsplit`. -/
def urlunsplitM (s : SplitUrl) : String :=
  let url := s.path
  let url :=
    if s.netloc ≠ "" ∨ strStarts url "//" then
      "//" ++ s.netloc ++ (if url ≠ "" ∧ ¬ strStarts url "/" then "/" ++ url else url)
    else url
  let url := if s.scheme ≠ "" then s.scheme ++ ":" ++ url else url
  let url := if s.query ≠ "" then url ++ "?" ++ s.query else url
  if s.fragment ≠ "" then url ++ "#" ++ s.fragment else url

/-- Model of `urllib.parse.urljoin`. -/
def urljoinM (base url : String) : String :=
  if base = "" then url
  else if url = "" then base
  else
    let b := urlsplitM base
    let r := urlsplitM url
    let scheme := if r.scheme = "" then b.scheme else r.scheme
    if scheme ≠ b.scheme ∨ scheme ∉ usesRelativeM then url
    else
      let netloc := if scheme ∈ usesNetlocM ∧ r.netloc ≠ "" then r.netloc else b.netloc
      if scheme ∈ usesNetlocM ∧ r.netloc ≠ "" then
        urlunsplitM ⟨scheme, r.netloc, r.path, r.query, r.fragment⟩
      else if r.path = "" then
        urlunsplitM ⟨scheme, netloc, b.path,
          (if r.query = "" then b.query else r.query), r.fragment⟩
      else
        urlunsplitM ⟨scheme, netloc, urljoinPath b.path r.path, r.query, r.fragment⟩

/-! ### `worker.py`: wrapper detection and redirect-link unwrapping -/

/-- Embedding of `is_google_news_wrapper` (worker.py lines 142-162): host must
be one of the three aggregator hosts, and either the path contains an
article-wrapper segment, or the host is a `google.com` gateway and the path is
exactly `/url`. -/
def is_google_news_wrapper (u : String) : Bool :=
  let p := urlparseM u
  let host := strLower p.netloc
  if !(host == "news.google.com" || host == "www.google.com" || host == "google.com") then
    false
  else if strContainsStr p.path "/articles/" || strContainsStr p.path "/rss/articles/" then
    true
  else
    (host == "www.google.com" || host == "google.com") && p.path == "/url"

/-- Embedding of `unwrap_google_redirect` (worker.py lines 202-218): on a
`google.com`/`www.google.com` host with path `/url`, return the decoded `url`
query parameter, else the decoded `q` parameter, else the href unchanged; any
other href is returned unchanged. -/
def unwrap_google_redirect (href : String) : String :=
  let p := urlparseM href
  let host := strLower p.netloc
  if !(host == "www.google.com" || host == "google.com") then href
  else if p.path ≠ "/url" then href
  else
    let qs := parseQslM p.query
    match qsLookup qs "url" with
    | some v => v
    | none =>
      match qsLookup qs "q" with
      | some v => v
      | none => href

/-! ### `worker.py`: publisher-link extraction from a wrapper page

`extract_publisher_url_from_google_news` (worker.py lines 290-344) inspects the
parsed page only through: the list of anchors that carry an `href` attribute
(`soup.find_all("a", href=True)`, in document order, each giving its `href`
value and its `get_text(strip=True)` text), and the first
`<link rel="canonical">`'s `href`.  `PubDoc` is that view of the external HTML
parser's output. -/

/-- An anchor as the extractor sees it: `href` attribute value and
`get_text(strip=True)` visible text. -/
structure Anchor where
  href : String
  txt : String
deriving DecidableEq, Repr

/-- The parsed wrapper page, as observed by the extractor. `canonical` is the
`href` attribute of the first `<link rel="canonical">`, `none` when there is no
such tag or it has no `href` attribute. -/
structure PubDoc where
  anchors : List Anchor
  canonical : Option String
deriving DecidableEq, Repr

/-- The call-to-action phrases of strategy 1. -/
def ctaPhrases : List String := ["read full article", "view full coverage", "go to article"]

/-- Strategy 1 (lines 296-308): first anchor whose lowercased visible text
contains a call-to-action phrase and whose unwrapped href starts with `http`
and has a nonempty host other than `news.google.com`. -/
def gnStrat1 : List Anchor → Option String
  | [] => none
  | a :: rest =>
    let href := pyStripStr a.href
    if href = "" then gnStrat1 rest
    else if ctaPhrases.any (fun p => strContainsStr (strLower a.txt) p) then
      let href := unwrap_google_redirect href
      if strStarts href "http" then
        let host := (urlparseM href).netloc
        if host ≠ "" ∧ host ≠ "news.google.com" then some href else gnStrat1 rest
      else gnStrat1 rest
    else gnStrat1 rest

/-- Strategy 2 (lines 310-315): the canonical link, accepted when its stripped
href starts with `http` and its netloc does not contain `news.google.com`. -/
def gnStrat2 : Option String → Option String
  | none => none
  | some h =>
    if h = "" then none
    else
      let href := pyStripStr h
      if strStarts href "http" ∧ ¬ strContainsStr (urlparseM href).netloc "news.google.com" then
        some href
      else none

/-- Normalization step of strategy 3 (lines 324-327): hrefs starting with `./`
are joined against the base URL, hrefs starting with `/` against
`https://news.google.com`, all others are left unchanged. -/
def gnNormHref (baseUrl href : String) : String :=
  if strStarts href "./" then urljoinM baseUrl href
  else if strStarts href "/" then urljoinM "https://news.google.com" href
  else href

/-- Does the (normalized, unwrapped) href qualify for strategy 3: starts with
`http`, nonempty host different from `news.google.com`?  Returns the host
check result. -/
def gnStrat3Accepts (href : String) : Bool :=
  strStarts href "http" &&
    ((urlparseM href).netloc ≠ "" && (urlparseM href).netloc ≠ "news.google.com")

/-- Does the href's parsed path look like an article path (`parsed.path` truthy
and longer than one character)? -/
def gnPathLong (href : String) : Bool :=
  (urlparseM href).path ≠ "" && 1 < (urlparseM href).path.length

/-- Strategy 3 loop (lines 317-342), faithful to the source shape: iterate
anchors accumulating `external_links` (`ext`, in order), returning immediately
at the first qualifying href with a long path, and otherwise the head of
`external_links` at the end. -/
def gnStrat3Go (baseUrl : String) : List Anchor → List String → Option String
  | [], ext => ext.head?
  | a :: rest, ext =>
    let href := pyStripStr a.href
    if href = "" then gnStrat3Go baseUrl rest ext
    else
      let href := unwrap_google_redirect (gnNormHref baseUrl href)
      if gnStrat3Accepts href then
        if gnPathLong href then some href
        else gnStrat3Go baseUrl rest (ext ++ [href])
      else gnStrat3Go baseUrl rest ext

/-- Embedding of `extract_publisher_url_from_google_news` (lines 290-344):
strategies 1, 2, 3 in order, first match wins, `none` when nothing matched. -/
def extract_publisher_url_from_google_news (d : PubDoc) (baseUrl : String) : Option String :=
  match gnStrat1 d.anchors with
  | some h => some h
  | none =>
    match gnStrat2 d.canonical with
    | some h => some h
    | none => gnStrat3Go baseUrl d.anchors []

/-! ### `worker.py`: the unwrap loop (`main`, lines 425-451)

`main` fetches the requested URL and then, while the fetched final URL or the
original URL is still a wrapper and fewer than 2 re-fetches happened, extracts
a publisher URL from the page HTML and re-fetches it; if no publisher URL is
found it raises (`Could not unwrap Google News article`).  The HTTP transport
is a parameter: `fetch url = some (doc, finalUrl)` models a successful
`fetch_html` returning the parsed page and the post-redirect URL, `none` models
`fetch_html` raising (which aborts the whole operation). -/

/-- Outcome of the unwrap loop. -/
inductive UnwrapResult where
  /-- The loop exited normally; extraction proceeds on `doc` fetched from
  `finalUrl`, after `count` re-fetches. -/
  | proceed (doc : PubDoc) (finalUrl : String) (count : Nat)
  /-- The loop raised `RuntimeError("Could not unwrap Google News article...")`. -/
  | unwrapFailed
  /-- A re-fetch inside the loop raised; the overall operation fails. -/
  | fetchFailed
deriving DecidableEq, Repr

/-- Embedding of the unwrap loop of `main` (lines 432-451).  `ow` is
`is_google_news_wrapper original_url` — `original_url` does not change inside
the loop.  `doc`/`finalUrl` are the current page and its final URL, `count` the
current `unwrap_count`. -/
def unwrapLoop (fetch : String → Option (PubDoc × String)) (ow : Bool) :
    PubDoc → String → Nat → UnwrapResult
  | doc, finalUrl, count =>
    if _h : (is_google_news_wrapper finalUrl || ow) = true ∧ count < 2 then
      match extract_publisher_url_from_google_news doc finalUrl with
      | none => .unwrapFailed
      | some pub =>
        match fetch pub with
        | none => .fetchFailed
        | some (d, f) => unwrapLoop fetch ow d f (count + 1)
    else .proceed doc finalUrl count
termination_by _ _ count => 2 - count
decreasing_by omega

/-! ### Claim-side definitions for C5 (formalizing the claim's wording) -/

/-- The fixed aggregator host set of the wrapper detector; the spec's
"off-aggregator" means a host different from any of these. -/
def aggregatorHosts : List String := ["news.google.com", "www.google.com", "google.com"]

/-- Claim C5's reading of "the resulting host is off-aggregator": a nonempty
host not in the aggregator host set. -/
def offAggregator (host : String) : Bool := host ≠ "" && !(aggregatorHosts.contains host)

/-- Strategy 1 as claim C5 words it: a call-to-action anchor, its href passed
through the unwrapping helper, accepted only if the resulting host is
off-aggregator. -/
def c5ClaimStrat1 : List Anchor → Option String
  | [] => none
  | a :: rest =>
    if ctaPhrases.any (fun p => strContainsStr (strLower a.txt) p) then
      let href := unwrap_google_redirect a.href
      if offAggregator (urlparseM href).netloc then some href else c5ClaimStrat1 rest
    else c5ClaimStrat1 rest

/-- Strategy 2 as claim C5 words it: a canonical link tag with an
off-aggregator href. -/
def c5ClaimStrat2 : Option String → Option String
  | none => none
  | some h => if offAggregator (urlparseM h).netloc then some h else none

/-- Strategy 3 as claim C5 words it: anchors normalized against the base URL
and unwrapped; the first off-aggregator absolute href with path length > 1,
else the first off-aggregator href in document order. -/
def c5ClaimStrat3 (baseUrl : String) (anchors : List Anchor) : Option String :=
  let hrefs := anchors.map (fun a => unwrap_google_redirect (urljoinM baseUrl a.href))
  let offs := hrefs.filter (fun h => strStarts h "http" && offAggregator (urlparseM h).netloc)
  match offs.find? (fun h => 1 < (urlparseM h).path.length) with
  | some h => some h
  | none => offs.head?

/-- The Publisher-Link Extractor as claim C5 describes it. -/
def c5Claimed (d : PubDoc) (baseUrl : String) : Option String :=
  match c5ClaimStrat1 d.anchors with
  | some h => some h
  | none =>
    match c5ClaimStrat2 d.canonical with
    | some h => some h
    | none => c5ClaimStrat3 baseUrl d.anchors

/-! ### Amended-side definitions for C5 (first-match reformulation of the
source's strategy-3 loop) -/

/-- First anchor (nonempty stripped href) whose normalized and unwrapped href
qualifies for strategy 3 and has a path longer than one character. -/
def gnStrat3First (baseUrl : String) : List Anchor → Option String
  | [] => none
  | a :: rest =>
    let href := pyStripStr a.href
    if href = "" then gnStrat3First baseUrl rest
    else
      let href := unwrap_google_redirect (gnNormHref baseUrl href)
      if gnStrat3Accepts href && gnPathLong href then some href
      else gnStrat3First baseUrl rest

/-- All strategy-3 qualifying hrefs without a long path, in document order. -/
def gnStrat3Acc (baseUrl : String) : List Anchor → List String
  | [] => []
  | a :: rest =>
    let href := pyStripStr a.href
    if href = "" then gnStrat3Acc baseUrl rest
    else
      let href := unwrap_google_redirect (gnNormHref baseUrl href)
      if gnStrat3Accepts href && !gnPathLong href then href :: gnStrat3Acc baseUrl rest
      else gnStrat3Acc baseUrl rest

/-! ### Concrete inputs for claims C1 and C5 -/

/-- A wrapper page whose only link is the bare Google redirect endpoint. -/
def c1Doc : PubDoc := ⟨[⟨"https://www.google.com/url", ""⟩], none⟩

/-- The transport oracle for C1: fetching `https://www.google.com/url` serves
the same wrapper page again (its final URL still the gateway endpoint); no
other URL is fetched by the loop on this input. -/
def c1Fetch : String → Option (PubDoc × String) :=
  fun u => if u = "https://www.google.com/url" then some (c1Doc, "https://www.google.com/url") else none

/-- The wrapper page of the C5 counterexample: a call-to-action anchor whose
target stays on `www.google.com`, and a root-relative anchor `/a/b`. -/
def c5Doc : PubDoc :=
  ⟨[⟨"https://www.google.com/search?q=x", "Read full article"⟩, ⟨"/a/b", ""⟩], none⟩

/-- Claim C4's "gateway redirect link" test: a `google.com`/`www.google.com`
host with path exactly `/url`. -/
def c4Gateway (href : String) : Prop :=
  (strLower (urlparseM href).netloc = "www.google.com" ∨
    strLower (urlparseM href).netloc = "google.com") ∧
  (urlparseM href).path = "/url"

instance (href : String) : Decidable (c4Gateway href) := by
  unfold c4Gateway; infer_instance

/-- Claim C4's expected result on a gateway link: the URL-decoded `url`
parameter, else the URL-decoded `q` parameter, else the href unchanged. -/
def c4Expected (href : String) : String :=
  ((qsLookup (parseQslM (urlparseM href).query) "url").orElse
    (fun _ => qsLookup (parseQslM (urlparseM href).query) "q")).getD href

/-! ### `worker.py`: text normalization (`normalize_space`, lines 42-45)

`normalize_space` applies `re.sub(r"[ \t]+", " ", s)`, then
`re.sub(r"\n{3,}", "\n\n", s)`, then `str.strip()`. -/

/-- Horizontal whitespace of the regex class `[ \t]`. -/
def isHT (c : Char) : Bool := c == ' ' || c == '\t'

/-- Model of `re.sub(r"[ \t]+", " ", s)`: collapse each maximal run of spaces
and tabs to a single space.  `pending` records whether a run is open. -/
def cHT : Bool → List Char → List Char
  | pending, [] => if pending then [' '] else []
  | pending, c :: rest =>
    if isHT c then cHT true rest
    else if pending then ' ' :: c :: cHT false rest
    else c :: cHT false rest

/-- Replacement for a maximal newline run of length `n` under
`re.sub(r"\n{3,}", "\n\n", s)`. -/
def nlEmit (n : Nat) : List Char := List.replicate (if 3 ≤ n then 2 else n) '\n'

/-- Model of `re.sub(r"\n{3,}", "\n\n", s)`: collapse each maximal run of 3 or
more newlines to exactly two.  `n` counts the pending newlines. -/
def cNL : Nat → List Char → List Char
  | n, [] => nlEmit n
  | n, c :: rest => if c = '\n' then cNL (n + 1) rest else nlEmit n ++ c :: cNL 0 rest

/-- Embedding of `normalize_space` (worker.py lines 42-45). -/
def normalize_space (s : String) : String := ⟨pyStrip (cNL 0 (cHT false s.data))⟩

/-- The no-adjacent-horizontal-whitespace relation: the `Chain'` part of being
a fixed point of the `[ \t]+` collapse. -/
def relHT (a b : Char) : Prop := ¬(isHT a = true ∧ isHT b = true)

/-- Fixed points of the `[ \t]+` collapse: no tab, and no two adjacent
`[ \t]` characters. -/
def HtOK (l : List Char) : Prop :=
  (∀ c ∈ l, c ≠ '\t') ∧ l.Chain' relHT

/-- Windowed check for "no three consecutive newlines": fixed points of the
`\n{3,}` collapse. -/
def nlOKb : List Char → Bool
  | a :: b :: c :: rest => !(a == '\n' && b == '\n' && c == '\n') && nlOKb (b :: c :: rest)
  | _ => true
termination_by l => l.length
decreasing_by simp

/-! ### `worker.py`: content extraction (`extract_main_text`, lines 69-101)

`extract_main_text` observes the parsed page as an element/text tree: it
decomposes the non-content tags, looks up `<article>`, scans
`<main>`/`<div>`/`<section>` candidates, and falls back to `<body>`.  `HNode`
is that view of the external HTML parser's output; a document is the list of
top-level nodes.  `get_text("\n", strip=True)` joins the stripped nonempty
descendant strings with newlines.  The specialized engine (trafilatura) result
is the `engine` parameter: `none` models both an engine exception and an
engine `None` result; `some ""` an empty result (falsy in the source). -/

/-- An element/text tree node of the parsed HTML document. -/
inductive HNode where
  | elem (tag : String) (children : List HNode)
  | text (s : String)

mutual

/-- Stripped nonempty descendant strings of a node, in document order (the
components of `get_text("\n", strip=True)`). -/
def textsOf : HNode → List String
  | .text s => if pyStripStr s = "" then [] else [pyStripStr s]
  | .elem _ cs => textsOfList cs

/-- Stripped nonempty descendant strings of a forest, in document order. -/
def textsOfList : List HNode → List String
  | [] => []
  | n :: rest => textsOf n ++ textsOfList rest

end

/-- Model of `node.get_text("\n", strip=True)`. -/
def getTextN (n : HNode) : String := ⟨joinSep ['\n'] ((textsOf n).map String.data)⟩

mutual

/-- Model of decomposing every element whose tag is in `bad`: `none` when the
node itself is removed. -/
def stripTags (bad : List String) : HNode → Option HNode
  | .text s => some (.text s)
  | .elem t cs => if bad.contains t then none else some (.elem t (stripTagsList bad cs))

/-- Decompose every element of a forest whose tag is in `bad`. -/
def stripTagsList (bad : List String) : List HNode → List HNode
  | [] => []
  | n :: rest =>
    match stripTags bad n with
    | some m => m :: stripTagsList bad rest
    | none => stripTagsList bad rest

end

mutual

/-- Model of `soup.find(tag)`: first matching element in document (pre-)order. -/
def findTag (tag : String) : HNode → Option HNode
  | .text _ => none
  | .elem t cs => if t = tag then some (.elem t cs) else findTagList tag cs

/-- First matching element of a forest in document order. -/
def findTagList (tag : String) : List HNode → Option HNode
  | [] => none
  | n :: rest =>
    match findTag tag n with
    | some r => some r
    | none => findTagList tag rest

end

mutual

/-- Model of `soup.find_all(tag)`: all matching elements in document order
(nested matches included). -/
def findAllTag (tag : String) : HNode → List HNode
  | .text _ => []
  | .elem t cs => (if t = tag then [.elem t cs] else []) ++ findAllTagList tag cs

/-- All matching elements of a forest in document order. -/
def findAllTagList (tag : String) : List HNode → List HNode
  | [] => []
  | n :: rest => findAllTag tag n ++ findAllTagList tag rest

end

/-- The tags decomposed by `extract_main_text` (worker.py line 79). -/
def badTags : List String := ["script", "style", "noscript", "header", "footer", "nav", "aside"]

/-- The tags claim C6 says are removed (it omits `noscript`). -/
def c6ClaimTags : List String := ["script", "style", "nav", "header", "footer", "aside"]

/-- The length-≥-800 candidate texts of the `<main>`/`<div>`/`<section>` scan
(worker.py lines 86-91), over the already-stripped document. -/
def c6Candidates (stripped : List HNode) : List String :=
  ((findAllTagList "main" stripped ++ findAllTagList "div" stripped ++
      findAllTagList "section" stripped).map (fun n => normalize_space (getTextN n))).filter
    (fun t => 800 ≤ t.length)

/-- The longest candidate, earliest among ties: the effect of the stable
descending sort by length followed by taking the head (worker.py lines 93-95). -/
def pickLongest : List String → Option String
  | [] => none
  | t :: rest =>
    some (rest.foldl (fun best x => if best.length < x.length then x else best) t)

/-- Embedding of the BeautifulSoup fallback chain of `extract_main_text`
(worker.py lines 78-101): decompose non-content tags, then `<article>` text,
then the longest ≥ 800 candidate, then `<body>` text, else the empty string. -/
def extractFallback (doc : List HNode) : String :=
  let stripped := stripTagsList badTags doc
  match findTagList "article" stripped with
  | some a => normalize_space (getTextN a)
  | none =>
    match pickLongest (c6Candidates stripped) with
    | some best => best
    | none =>
      match findTagList "body" stripped with
      | some b => normalize_space (getTextN b)
      | none => ""

/-- Embedding of `extract_main_text` (worker.py lines 69-101): the specialized
engine's nonempty result wins, normalized; otherwise the fallback chain. -/
def extract_main_text (engine : Option String) (doc : List HNode) : String :=
  match engine with
  | some t => if t ≠ "" then normalize_space t else extractFallback doc
  | none => extractFallback doc

/-- The counterexample document for C6: an `<article>` containing a text node
and a `<noscript>` element with text. -/
def c6Doc : List HNode := [.elem "article" [.text "A", .elem "noscript" [.text "B"]]]

/-- The witness document for C6: a plain `<article>` with text. -/
def c6WDoc : List HNode := [.elem "article" [.text "hi"]]

/-! ### `worker.py`: response body streaming (`fetch_html`, lines 121-131)

The transport's body stream is the list of chunks that `iter_content` yields
(each at most the requested 64 KiB = 65536 bytes); bytes are `Nat`s. -/

/-- One pass of the chunked body read (worker.py lines 121-131): `total` is the
running byte total, `acc` the buffered chunks (reversed; a chunk is appended
only after the size check passes).  The first component collects the value of
`total` at each size check — the accumulated buffered bytes at the moment the
chunk just read is held; the second component is the outcome. -/
def fetchGo (maxBytes : Nat) : List (List Nat) → Nat → List (List Nat) →
    List Nat × Except String (List Nat)
  | [], _, acc => ([], .ok acc.reverse.flatten)
  | ch :: rest, total, acc =>
    if ch.isEmpty then fetchGo maxBytes rest total acc
    else
      let t := total + ch.length
      if maxBytes < t then ([t], .error "response too large")
      else
        let r := fetchGo maxBytes rest t (ch :: acc)
        (t :: r.1, r.2)

/-- The body read by the Fetcher from the chunk stream: the buffered bytes, or
the `response too large` error the instant the cap is exceeded.  The declared
`Content-Length` header plays no role: the result depends on the streamed
chunks only. -/
def fetchBody (maxBytes : Nat) (chunks : List (List Nat)) : Except String (List Nat) :=
  (fetchGo maxBytes chunks 0 []).2

/-- The running totals observed at each size check during the read. -/
def fetchTotals (maxBytes : Nat) (chunks : List (List Nat)) : List Nat :=
  (fetchGo maxBytes chunks 0 []).1

/-- Total byte length of a chunk stream. -/
def sumLens (chunks : List (List Nat)) : Nat := (chunks.map List.length).sum

/-! ### `worker.py`: content-type validation (`fetch_html`, lines 117-119) -/

/-- Embedding of the content-type check: the raw `Content-Type` header value
(`none` when the header is absent) is defaulted to the empty string and
lowercased; a nonempty value containing none of `text/html`,
`application/xhtml+xml`, `application/xml` as a substring raises
(`some errorMessage`); otherwise the fetch proceeds (`none`) — in particular
an absent or empty declared content-type is accepted. -/
def contentTypeCheck (rawCtype : Option String) : Option String :=
  let ctype := strLower (rawCtype.getD "")
  if !(ctype == "") && !strContainsStr ctype "text/html" &&
      !strContainsStr ctype "application/xhtml+xml" && !strContainsStr ctype "application/xml"
  then some ("unsupported content-type: " ++ ctype)
  else none

/-- Claim C3's "HTML/XHTML/XML family" of a declared content-type: its media
type (the part before any `;` parameters, whitespace-stripped) is one of the
three family types. -/
def htmlFamilySpec (ctype : String) : Bool :=
  let mt := pyStripStr ⟨(splitAll ';' ctype.data).headD []⟩
  mt == "text/html" || mt == "application/xhtml+xml" || mt == "application/xml"

/-! ### `worker.py`: translation stage (`main`, lines 460-491)

The machine-translation engine is the oracle `tr : String → Option String`;
`none` models the engine raising on that input. -/

/-- The activation test of the translation stage (worker.py line 464):
`args.target_lang and args.target_lang != lang`.  A `none` or empty-string
target deactivates the stage; an absent detected language (`lang = none`)
compares unequal to every string target. -/
def translationActivated (targetLang lang : Option String) : Bool :=
  match targetLang with
  | none => false
  | some t => !(t == "") && !(some t == lang)

/-- One field through the engine (worker.py lines 471-476): the translated
text, or the field left at its pre-translation value when the engine raises. -/
def translateField (tr : String → Option String) (s : String) : String :=
  match tr s with
  | some t => t
  | none => s

/-- The `text[i:i+4500]` chunking (worker.py line 482): `budget` is the room
left in the current chunk, `acc` the current chunk reversed. -/
def chunkAux : Nat → List Char → List Char → List (List Char)
  | _, acc, [] => if acc.isEmpty then [] else [acc.reverse]
  | 0, acc, c :: rest => acc.reverse :: chunkAux 4499 [c] rest
  | budget + 1, acc, c :: rest => chunkAux budget (c :: acc) rest

/-- The ≈4500-character chunks of the body text. -/
def chunkText (s : String) : List String := (chunkAux 4500 [] s.data).map (fun l => ⟨l⟩)

/-- The chunk loop of the text translation (worker.py lines 483-485): each
chunk through the engine in order; `none` the moment any chunk fails. -/
def translateChunks (tr : String → Option String) : List String → Option (List String)
  | [] => some []
  | c :: rest =>
    match tr c with
    | none => none
    | some t =>
      match translateChunks tr rest with
      | none => none
      | some ts => some (t :: ts)

/-- The active translation branch (worker.py lines 468-489): a nonempty title
is translated as one unit and kept on failure; a nonempty text is translated
chunk by chunk inside one `try`, the results joined with single spaces, the
whole text kept if any chunk fails. -/
def translateStageActive (tr : String → Option String) (title text : String) :
    String × String :=
  (if title ≠ "" then translateField tr title else title,
   if text ≠ "" then
     match translateChunks tr (chunkText text) with
     | some ts => ⟨joinSep [' '] (ts.map String.data)⟩
     | none => text
   else text)

/-- The whole translation stage of `main` (lines 460-491): gated by
`translationActivated`; the site and author fields are returned untouched on
every path (the source deliberately never translates them). -/
def translateStage (tr : String → Option String) (targetLang lang : Option String)
    (title text site : String) (author : Option String) :
    String × String × String × Option String :=
  if translationActivated targetLang lang then
    ((translateStageActive tr title text).1, (translateStageActive tr title text).2, site, author)
  else (title, text, site, author)

/-! ### `worker.py`: result envelope and exit codes (`main`, lines 493-531) -/

/-- The outcome classes of `main`'s top-level handlers. -/
inductive FetchOutcome where
  | success
  | httpError (status : Nat) (msg : String)
  | timeoutErr
  | otherError (exnName msg : String)
deriving DecidableEq, Repr

/-- Process exit status (worker.py lines 509, 516, 522, 531): 0 on success,
2 on every failure class. -/
def exitCode : FetchOutcome → Nat
  | .success => 0
  | .httpError _ _ => 2
  | .timeoutErr => 2
  | .otherError _ _ => 2

/-- Whether a success envelope (`ok: true`) is emitted. -/
def envelopeOk : FetchOutcome → Bool
  | .success => true
  | _ => false

/-- The handler class of an outcome (success, HTTP error, timeout, other
failure). -/
def outcomeClass : FetchOutcome → Nat
  | .success => 0
  | .httpError _ _ => 1
  | .timeoutErr => 2
  | .otherError _ _ => 3

/-- The error string of the failure envelope (worker.py lines 513, 520, 526). -/
def errorMessage : FetchOutcome → Option String
  | .success => none
  | .httpError status msg => some ("HTTP " ++ toString status ++ ": " ++ msg)
  | .timeoutErr => some "Request timeout"
  | .otherError exnName msg => some (exnName ++ ": " ++ msg)

/-! ## Theorems -/

/-! ### Helper lemmas -/

theorem nlOKb_short (l : List Char) (h : l.length ≤ 2) : nlOKb l = true := by
  match l with
  | [] => simp [nlOKb]
  | [a] => simp [nlOKb]
  | [a, b] => simp [nlOKb]

theorem nlOKb_cons_iff (a : Char) (X : List Char) :
    nlOKb (a :: X) = true ↔ ¬(a = '\n' ∧ X.take 2 = ['\n', '\n']) ∧ nlOKb X = true := by
  match X with
  | [] => simp [nlOKb]
  | [b] => simp [nlOKb]
  | b :: c :: Y =>
    rw [show nlOKb (a :: b :: c :: Y) =
      (!(a == '\n' && b == '\n' && c == '\n') && nlOKb (b :: c :: Y)) from by simp [nlOKb]]
    simp [List.take]
    tauto

theorem nlOKb_tail (a : Char) (X : List Char) (h : nlOKb (a :: X) = true) : nlOKb X = true :=
  ((nlOKb_cons_iff a X).mp h).2

theorem nlOKb_take (l : List Char) : forall (k : Nat), nlOKb l = true -> nlOKb (l.take k) = true := by
  induction l with
  | nil => intro k _; exact nlOKb_short _ (by simp)
  | cons a rest ih =>
    intro k h
    cases k with
    | zero => exact nlOKb_short _ (by simp)
    | succ k =>
      rw [List.take_succ_cons, nlOKb_cons_iff]
      obtain h12 := (nlOKb_cons_iff a rest).mp h
      refine ⟨?_, ih k h12.2⟩
      rintro ⟨ha, ht⟩
      apply h12.1
      refine ⟨ha, ?_⟩
      rw [List.take_take] at ht
      rcases Nat.lt_or_ge k 2 with hk | hk
      · exfalso
        have hlen : (rest.take (min 2 k)).length ≤ min 2 k := by
          simp [List.length_take]
        rw [ht] at hlen
        simp at hlen
        omega
      · rwa [Nat.min_eq_left hk] at ht

theorem nlOKb_of_pre {t l : List Char} (hp : t <+: l) (h : nlOKb l = true) : nlOKb t = true := by
  obtain ⟨r, rfl⟩ := hp
  have h2 := nlOKb_take (t ++ r) t.length h
  rwa [List.take_left] at h2

theorem nlOKb_dropWhile (p : Char -> Bool) (l : List Char) (h : nlOKb l = true) :
    nlOKb (l.dropWhile p) = true := by
  induction l with
  | nil => simpa using h
  | cons a rest ih =>
    rw [List.dropWhile_cons]
    by_cases hp : p a = true
    · simp only [hp, if_true]
      exact ih (nlOKb_tail a rest h)
    · simp only [hp, if_false]
      exact h

theorem rstrip_pre (l : List Char) : rstripL l <+: l := by
  obtain ⟨u, hu⟩ := List.dropWhile_suffix (p := isPyS) (l := l.reverse)
  refine ⟨u.reverse, ?_⟩
  have h2 : (List.dropWhile isPyS l.reverse).reverse ++ u.reverse =
      (u ++ List.dropWhile isPyS l.reverse).reverse := by
    rw [List.reverse_append]
  rw [rstripL, h2, hu, List.reverse_reverse]

theorem ne_tab_of_not_isHT {c : Char} (hc : ¬ isHT c = true) : c ≠ '\t' := by
  intro h; subst h; exact hc (by decide)

theorem relHT_of_left {a b : Char} (ha : ¬ isHT a = true) : relHT a b :=
  fun h => ha h.1

theorem relHT_of_right {a b : Char} (hb : ¬ isHT b = true) : relHT a b :=
  fun h => hb h.2

theorem cHT_HtOK (l : List Char) : forall (pending : Bool), HtOK (cHT pending l) := by
  induction l with
  | nil =>
    intro pending
    cases pending
    · exact ⟨by simp [cHT], by simp [cHT]⟩
    · constructor
      · intro c hc
        simp [cHT] at hc
        subst hc; decide
      · simp [cHT]
  | cons c rest ih =>
    intro pending
    by_cases hc : isHT c = true
    · rw [show cHT pending (c :: rest) = cHT true rest from by simp [cHT, hc]]
      exact ih true
    · obtain ⟨ihT, ihC⟩ := ih false
      have hrec : HtOK (c :: cHT false rest) := by
        constructor
        · intro x hx
          rcases List.mem_cons.mp hx with rfl | hx
          · exact ne_tab_of_not_isHT hc
          · exact ihT x hx
        · exact List.chain'_cons'.mpr ⟨fun y _ => relHT_of_left hc, ihC⟩
      cases pending
      · rw [show cHT false (c :: rest) = c :: cHT false rest from by simp [cHT, hc]]
        exact hrec
      · rw [show cHT true (c :: rest) = ' ' :: c :: cHT false rest from by simp [cHT, hc]]
        obtain ⟨hT, hC⟩ := hrec
        constructor
        · intro x hx
          rcases List.mem_cons.mp hx with rfl | hx
          · decide
          · exact hT x hx
        · exact List.chain'_cons'.mpr ⟨fun y hy => by
            rw [List.head?_cons, Option.mem_some_iff] at hy
            subst hy
            exact relHT_of_right hc, hC⟩

theorem cHT_fixed (l : List Char) : HtOK l ->
    cHT false l = l ∧ ((forall d, l.head? = some d -> isHT d = false) -> cHT true l = ' ' :: l) := by
  induction l with
  | nil => exact fun _ => ⟨by simp [cHT], fun _ => by simp [cHT]⟩
  | cons c rest ih =>
    rintro ⟨hT, hC⟩
    have hrest : HtOK rest := ⟨fun x hx => hT x (List.mem_cons_of_mem c hx), hC.tail⟩
    obtain ⟨ih1, ih2⟩ := ih hrest
    constructor
    · by_cases hc : isHT c = true
      · have hcsp : c = ' ' := by
          have htab := hT c (List.mem_cons_self c rest)
          simp [isHT] at hc
          rcases hc with h | h
          · exact h
          · exact absurd h htab
        have hh : forall d, rest.head? = some d -> isHT d = false := by
          intro d hd
          have hrel := (List.chain'_cons'.mp hC).1 d (by rw [hd]; rfl)
          simp [relHT, hc] at hrel
          simpa using hrel
        rw [show cHT false (c :: rest) = cHT true rest from by simp [cHT, hc]]
        rw [ih2 hh, hcsp]
      · rw [show cHT false (c :: rest) = c :: cHT false rest from by simp [cHT, hc]]
        rw [ih1]
    · intro hhead
      have hc : isHT c = false := hhead c rfl
      rw [show cHT true (c :: rest) = ' ' :: c :: cHT false rest from by simp [cHT, hc]]
      rw [ih1]

theorem nlEmit_le_two (n : Nat) : (nlEmit n).length ≤ 2 := by
  simp only [nlEmit, List.length_replicate]
  split <;> omega

theorem mem_nlEmit {x : Char} {n : Nat} (h : x ∈ nlEmit n) : x = '\n' :=
  List.eq_of_mem_replicate h

theorem head?_nlEmit_pos {n : Nat} (hn : 1 ≤ n) : (nlEmit n).head? = some '\n' := by
  rcases hm : (if 3 ≤ n then 2 else n) with _ | m
  · exfalso
    split at hm
    · omega
    · omega
  · simp [nlEmit, hm, List.replicate_succ]

theorem nlEmit_getLast {n : Nat} {x : Char} (h : (nlEmit n).getLast? = some x) : x = '\n' := by
  rcases hm : (if 3 ≤ n then 2 else n) with _ | m
  · simp [nlEmit, hm] at h
  · rw [nlEmit, hm, List.replicate_succ', List.getLast?_concat] at h
    exact (Option.some.injEq _ _ ▸ h).symm

theorem head?_cNL_pos (r : List Char) : forall (n : Nat), 1 ≤ n -> (cNL n r).head? = some '\n' := by
  induction r with
  | nil =>
    intro n hn
    rw [show cNL n [] = nlEmit n from by simp [cNL]]
    exact head?_nlEmit_pos hn
  | cons c r' ih =>
    intro n hn
    by_cases hc : c = '\n'
    · rw [show cNL n (c :: r') = cNL (n + 1) r' from by simp [cNL, hc]]
      exact ih (n + 1) (by omega)
    · rw [show cNL n (c :: r') = nlEmit n ++ c :: cNL 0 r' from by simp [cNL, hc]]
      rw [List.head?_append, head?_nlEmit_pos hn]
      rfl

theorem head?_cNL0 (m : List Char) : (cNL 0 m).head? = m.head? := by
  cases m with
  | nil => simp [cNL, nlEmit]
  | cons c r =>
    by_cases hc : c = '\n'
    · rw [show cNL 0 (c :: r) = cNL 1 r from by simp [cNL, hc], head?_cNL_pos r 1 (by omega), hc]
      rfl
    · rw [show cNL 0 (c :: r) = nlEmit 0 ++ c :: cNL 0 r from by simp [cNL, hc]]
      simp [nlEmit]

theorem cNL_mem (l : List Char) : forall (n : Nat) (x : Char), x ∈ cNL n l -> x = '\n' ∨ x ∈ l := by
  induction l with
  | nil =>
    intro n x hx
    rw [show cNL n [] = nlEmit n from by simp [cNL]] at hx
    exact Or.inl (mem_nlEmit hx)
  | cons c rest ih =>
    intro n x hx
    by_cases hc : c = '\n'
    · rw [show cNL n (c :: rest) = cNL (n + 1) rest from by simp [cNL, hc]] at hx
      rcases ih (n + 1) x hx with h | h
      · exact Or.inl h
      · exact Or.inr (List.mem_cons_of_mem c h)
    · rw [show cNL n (c :: rest) = nlEmit n ++ c :: cNL 0 rest from by simp [cNL, hc]] at hx
      rcases List.mem_append.mp hx with h | h
      · exact Or.inl (mem_nlEmit h)
      · rcases List.mem_cons.mp h with rfl | h
        · exact Or.inr (List.mem_cons_self _ _)
        · rcases ih 0 x h with h2 | h2
          · exact Or.inl h2
          · exact Or.inr (List.mem_cons_of_mem c h2)

theorem cNL_chain' (l : List Char) : l.Chain' relHT -> forall (n : Nat), (cNL n l).Chain' relHT := by
  induction l with
  | nil =>
    intro _ n
    rw [show cNL n [] = nlEmit n from by simp [cNL]]
    exact List.chain'_replicate_of_rel _ (relHT_of_left (by decide))
  | cons c rest ih =>
    intro hC n
    by_cases hc : c = '\n'
    · rw [show cNL n (c :: rest) = cNL (n + 1) rest from by simp [cNL, hc]]
      exact ih hC.tail (n + 1)
    · rw [show cNL n (c :: rest) = nlEmit n ++ c :: cNL 0 rest from by simp [cNL, hc]]
      apply List.Chain'.append
      · exact List.chain'_replicate_of_rel _ (relHT_of_left (by decide))
      · refine List.chain'_cons'.mpr ⟨?_, ih hC.tail 0⟩
        intro y hy
        rw [Option.mem_def, head?_cNL0 rest] at hy
        exact (List.chain'_cons'.mp hC).1 y hy
      · intro x hx y _
        have hx2 : x = '\n' := nlEmit_getLast hx
        subst hx2
        exact relHT_of_left (by decide)

theorem cNL_HtOK {l : List Char} (h : HtOK l) (n : Nat) : HtOK (cNL n l) := by
  obtain ⟨hT, hC⟩ := h
  constructor
  · intro x hx
    rcases cNL_mem l n x hx with rfl | hx2
    · decide
    · exact hT x hx2
  · exact cNL_chain' l hC n

theorem cNL_nlOKb (l : List Char) : forall (n : Nat), nlOKb (cNL n l) = true := by
  induction l with
  | nil =>
    intro n
    rw [show cNL n [] = nlEmit n from by simp [cNL]]
    exact nlOKb_short _ (nlEmit_le_two n)
  | cons c rest ih =>
    intro n
    by_cases hc : c = '\n'
    · rw [show cNL n (c :: rest) = cNL (n + 1) rest from by simp [cNL, hc]]
      exact ih (n + 1)
    · rw [show cNL n (c :: rest) = nlEmit n ++ c :: cNL 0 rest from by simp [cNL, hc]]
      have hcons : nlOKb (c :: cNL 0 rest) = true := by
        rw [nlOKb_cons_iff]
        exact ⟨fun h => hc h.1, ih 0⟩
      rcases hm : (if 3 ≤ n then 2 else n) with _ | m
      · simpa [nlEmit, hm] using hcons
      · rcases m with _ | m2
        · rw [show nlEmit n = ['\n'] from by simp [nlEmit, hm]]
          rw [List.singleton_append, nlOKb_cons_iff]
          refine ⟨?_, hcons⟩
          rintro ⟨_, ht⟩
          rw [show (c :: cNL 0 rest).take 2 = c :: (cNL 0 rest).take 1 from by simp] at ht
          exact hc (List.cons.injEq _ _ _ _ ▸ ht).1
        · have hm2 : m2 = 0 := by
            have hle : (if 3 ≤ n then 2 else n) ≤ 2 := by split <;> omega
            omega
          subst hm2
          rw [show nlEmit n = ['\n', '\n'] from by simp [nlEmit, hm, List.replicate]]
          rw [show (['\n', '\n'] : List Char) ++ c :: cNL 0 rest =
            '\n' :: '\n' :: c :: cNL 0 rest from by simp]
          rw [nlOKb_cons_iff]
          constructor
          · rintro ⟨_, ht⟩
            rw [show ('\n' :: c :: cNL 0 rest).take 2 = ['\n', c] from by simp] at ht
            exact hc (by
              have h2 := (List.cons.injEq _ _ _ _ ▸ ht).2
              exact (List.cons.injEq _ _ _ _ ▸ h2).1)
          · rw [nlOKb_cons_iff]
            refine ⟨?_, hcons⟩
            rintro ⟨_, ht⟩
            rw [show (c :: cNL 0 rest).take 2 = c :: (cNL 0 rest).take 1 from by simp] at ht
            exact hc (List.cons.injEq _ _ _ _ ▸ ht).1

theorem cNL_fixed : forall (l : List Char), nlOKb l = true -> cNL 0 l = l
  | [], _ => by simp [cNL, nlEmit]
  | [c], _ => by
    by_cases hc : c = '\n'
    · subst hc; simp [cNL, nlEmit]
    · simp [cNL, hc, nlEmit]
  | [c, d], h => by
    by_cases hc : c = '\n'
    · by_cases hd : d = '\n'
      · subst hc; subst hd; simp [cNL, nlEmit]
      · subst hc; simp [cNL, hd, nlEmit]
    · by_cases hd : d = '\n'
      · subst hd; simp [cNL, hc, nlEmit]
      · simp [cNL, hc, hd, nlEmit]
  | c :: d :: e :: rest, h => by
    by_cases hc : c = '\n'
    · by_cases hd : d = '\n'
      · by_cases he : e = '\n'
        · exfalso
          subst hc; subst hd; subst he
          rw [show nlOKb ('\n' :: '\n' :: '\n' :: rest) =
            (!('\n' == '\n' && '\n' == '\n' && '\n' == '\n') && nlOKb ('\n' :: '\n' :: rest))
            from by simp [nlOKb]] at h
          simp at h
        · have hr := cNL_fixed rest (nlOKb_tail _ _ (nlOKb_tail _ _ (nlOKb_tail _ _ h)))
          subst hc; subst hd
          rw [show cNL 0 ('\n' :: '\n' :: e :: rest) = cNL 2 (e :: rest) from by simp [cNL]]
          rw [show cNL 2 (e :: rest) = nlEmit 2 ++ e :: cNL 0 rest from by simp [cNL, he]]
          rw [hr]
          simp [nlEmit, List.replicate]
      · have hr := cNL_fixed (e :: rest) (nlOKb_tail _ _ (nlOKb_tail _ _ h))
        subst hc
        rw [show cNL 0 ('\n' :: d :: e :: rest) = cNL 1 (d :: e :: rest) from by simp [cNL]]
        rw [show cNL 1 (d :: e :: rest) = nlEmit 1 ++ d :: cNL 0 (e :: rest) from by simp [cNL, hd]]
        rw [hr]
        simp [nlEmit, List.replicate]
    · have hr := cNL_fixed (d :: e :: rest) (nlOKb_tail _ _ h)
      rw [show cNL 0 (c :: d :: e :: rest) = nlEmit 0 ++ c :: cNL 0 (d :: e :: rest) from by
        simp [cNL, hc]]
      rw [hr]
      simp [nlEmit]
termination_by l => l.length

theorem dropWhile_head_false {p : Char -> Bool} (l : List Char) :
    forall (d : Char), (l.dropWhile p).head? = some d -> p d = false := by
  induction l with
  | nil => intro d h; simp at h
  | cons a rest ih =>
    intro d h
    rw [List.dropWhile_cons] at h
    by_cases hp : p a = true
    · rw [if_pos hp] at h
      exact ih d h
    · rw [if_neg hp] at h
      rw [List.head?_cons, Option.some.injEq] at h
      subst h
      exact Bool.not_eq_true _ ▸ hp

theorem dropWhile_of_head_false {p : Char -> Bool} {m : List Char}
    (h : forall d, m.head? = some d -> p d = false) : m.dropWhile p = m := by
  cases m with
  | nil => rfl
  | cons a rest =>
    rw [List.dropWhile_cons, if_neg]
    rw [h a rfl]
    simp

theorem rstrip_idem (l : List Char) : rstripL (rstripL l) = rstripL l := by
  simp only [rstripL, List.reverse_reverse]
  rw [List.dropWhile_idempotent]

theorem prefix_head?_eq {t r : List Char} (h : t ≠ []) : (t ++ r).head? = t.head? := by
  cases t with
  | nil => exact absurd rfl h
  | cons a t' => simp

theorem pyStrip_idem (l : List Char) : pyStrip (pyStrip l) = pyStrip l := by
  unfold pyStrip
  have hl : lstripL (rstripL (lstripL l)) = rstripL (lstripL l) := by
    rcases hru : rstripL (lstripL l) with _ | ⟨d, rest⟩
    · simp [lstripL]
    · rw [← hru]
      apply dropWhile_of_head_false
      intro d2 hd2
      obtain ⟨r, hr⟩ := rstrip_pre (lstripL l)
      have h1 : (lstripL l).head? = some d2 := by
        rw [← hr, prefix_head?_eq (by rw [hru]; simp), hd2]
      exact dropWhile_head_false l d2 h1
  rw [hl, rstrip_idem]

theorem pyStrip_HtOK {l : List Char} (h : HtOK l) : HtOK (pyStrip l) := by
  obtain ⟨hT, hC⟩ := h
  have hT1 : forall c, c ∈ lstripL l -> c ≠ '\t' := by
    intro x hx
    exact hT x ((List.dropWhile_sublist _).subset hx)
  have hC1 : (lstripL l).Chain' relHT := hC.suffix (List.dropWhile_suffix _)
  constructor
  · intro x hx
    obtain ⟨r, hr⟩ := rstrip_pre (lstripL l)
    exact hT1 x (by rw [← hr]; exact List.mem_append_left _ hx)
  · exact List.Chain'.prefix hC1 (rstrip_pre _)

theorem pyStrip_nlOKb {l : List Char} (h : nlOKb l = true) : nlOKb (pyStrip l) = true :=
  nlOKb_of_pre (rstrip_pre _) (nlOKb_dropWhile _ _ h)

/-- Claim C7 (status: confirmed).  The text normalization (collapse `[ \t]+`
runs to one space, collapse three or more consecutive newlines to exactly two,
strip leading and trailing whitespace) is idempotent: for every string `s`,
`normalize_space (normalize_space s) = normalize_space s`. -/
theorem C7_normalize_space_idempotent (s : String) :
    normalize_space (normalize_space s) = normalize_space s := by
  have hx : HtOK (cHT false s.data) := cHT_HtOK s.data false
  have hy : HtOK (cNL 0 (cHT false s.data)) := cNL_HtOK hx 0
  have ht : HtOK (pyStrip (cNL 0 (cHT false s.data))) := pyStrip_HtOK hy
  have hny : nlOKb (cNL 0 (cHT false s.data)) = true := cNL_nlOKb (cHT false s.data) 0
  have hnt : nlOKb (pyStrip (cNL 0 (cHT false s.data))) = true := pyStrip_nlOKb hny
  show (⟨pyStrip (cNL 0 (cHT false (pyStrip (cNL 0 (cHT false s.data)))))⟩ : String) = _
  rw [(cHT_fixed _ ht).1, cNL_fixed _ hnt, pyStrip_idem]
  rfl


theorem c1_step1 : unwrapLoop c1Fetch true c1Doc "https://news.google.com/articles/x" 0 =
    unwrapLoop c1Fetch true c1Doc "https://www.google.com/url" 1 := by
  rw [unwrapLoop]
  rw [dif_pos (by constructor <;> decide)]
  simp only [show extract_publisher_url_from_google_news c1Doc
    "https://news.google.com/articles/x" = some "https://www.google.com/url" from by decide]
  simp [c1Fetch]

theorem c1_step2 : unwrapLoop c1Fetch true c1Doc "https://www.google.com/url" 1 =
    unwrapLoop c1Fetch true c1Doc "https://www.google.com/url" 2 := by
  rw [unwrapLoop]
  rw [dif_pos (by constructor <;> decide)]
  simp only [show extract_publisher_url_from_google_news c1Doc
    "https://www.google.com/url" = some "https://www.google.com/url" from by decide]
  simp [c1Fetch]

theorem c1_step3 : unwrapLoop c1Fetch true c1Doc "https://www.google.com/url" 2 =
    .proceed c1Doc "https://www.google.com/url" 2 := by
  rw [unwrapLoop]
  rw [dif_neg (by omega)]

theorem gnStrat3Go_eq (baseUrl : String) : ∀ (anchors : List Anchor) (ext : List String),
    gnStrat3Go baseUrl anchors ext =
      match gnStrat3First baseUrl anchors with
      | some h => some h
      | none => (ext ++ gnStrat3Acc baseUrl anchors).head? := by
  intro anchors
  induction anchors with
  | nil => intro ext; simp [gnStrat3Go, gnStrat3First, gnStrat3Acc]
  | cons a rest ih =>
    intro ext
    by_cases h1 : pyStripStr a.href = ""
    · have e1 : gnStrat3Go baseUrl (a :: rest) ext = gnStrat3Go baseUrl rest ext := by
        simp [gnStrat3Go, h1]
      have e2 : gnStrat3First baseUrl (a :: rest) = gnStrat3First baseUrl rest := by
        simp [gnStrat3First, h1]
      have e3 : gnStrat3Acc baseUrl (a :: rest) = gnStrat3Acc baseUrl rest := by
        simp [gnStrat3Acc, h1]
      rw [e1, e2, e3, ih ext]
    · by_cases h2 : gnStrat3Accepts (unwrap_google_redirect (gnNormHref baseUrl (pyStripStr a.href))) = true
      · by_cases h3 : gnPathLong (unwrap_google_redirect (gnNormHref baseUrl (pyStripStr a.href))) = true
        · have e1 : gnStrat3Go baseUrl (a :: rest) ext =
              some (unwrap_google_redirect (gnNormHref baseUrl (pyStripStr a.href))) := by
            simp [gnStrat3Go, h1, h2, h3]
          have e2 : gnStrat3First baseUrl (a :: rest) =
              some (unwrap_google_redirect (gnNormHref baseUrl (pyStripStr a.href))) := by
            simp [gnStrat3First, h1, h2, h3]
          rw [e1, e2]
        · have e1 : gnStrat3Go baseUrl (a :: rest) ext = gnStrat3Go baseUrl rest
              (ext ++ [unwrap_google_redirect (gnNormHref baseUrl (pyStripStr a.href))]) := by
            simp [gnStrat3Go, h1, h2, h3]
          have e2 : gnStrat3First baseUrl (a :: rest) = gnStrat3First baseUrl rest := by
            simp [gnStrat3First, h1, h2, h3]
          have e3 : gnStrat3Acc baseUrl (a :: rest) =
              unwrap_google_redirect (gnNormHref baseUrl (pyStripStr a.href)) ::
                gnStrat3Acc baseUrl rest := by
            simp [gnStrat3Acc, h1, h2, h3]
          rw [e1, e2, e3,
            ih (ext ++ [unwrap_google_redirect (gnNormHref baseUrl (pyStripStr a.href))])]
          cases gnStrat3First baseUrl rest
          · simp
          · simp
      · have e1 : gnStrat3Go baseUrl (a :: rest) ext = gnStrat3Go baseUrl rest ext := by
          simp [gnStrat3Go, h1, h2]
        have e2 : gnStrat3First baseUrl (a :: rest) = gnStrat3First baseUrl rest := by
          simp [gnStrat3First, h1, h2]
        have e3 : gnStrat3Acc baseUrl (a :: rest) = gnStrat3Acc baseUrl rest := by
          simp [gnStrat3Acc, h1, h2]
        rw [e1, e2, e3, ih ext]

/-! ### Claim C1 -/

/-- Claim C1 (status: code_bug).  The claim (and the spec's invariant) says the
Unwrap Loop, on exhausting its 2 re-fetches while the final URL is still a
wrapper, fails with an unwrap error and never proceeds to extraction with
wrapper-page content.  The code has no such exit: on the concrete input below —
original URL `https://news.google.com/articles/x`, whose page links only to the
gateway endpoint `https://www.google.com/url`, which serves the same page again
— the loop exits after 2 re-fetches in the `proceed` state, handing a page
whose final URL is still classified as a wrapper to the extraction stage. -/
theorem C1_unwrap_exhaustion_code_bug :
    unwrapLoop c1Fetch true c1Doc "https://news.google.com/articles/x" 0 =
      .proceed c1Doc "https://www.google.com/url" 2 ∧
    is_google_news_wrapper "https://news.google.com/articles/x" = true ∧
    is_google_news_wrapper "https://www.google.com/url" = true := by
  refine ⟨?_, by decide, by decide⟩
  rw [c1_step1, c1_step2, c1_step3]

/-! ### Claim C4 -/

/-- Claim C4 (status: confirmed).  For every href: on a gateway redirect link
(`google.com`/`www.google.com` host, path `/url`) the unwrapping helper
returns the URL-decoded `url` query parameter if present, else the URL-decoded
`q` parameter, else the href unchanged; every non-gateway href is returned
unchanged; and the helper maps
`https://google.com/url?q=https://example.com/a&sa=D` to
`https://example.com/a`. -/
theorem C4_unwrap_google_redirect_correct (href : String) :
    (c4Gateway href → unwrap_google_redirect href = c4Expected href) ∧
    (¬ c4Gateway href → unwrap_google_redirect href = href) ∧
    unwrap_google_redirect "https://google.com/url?q=https://example.com/a&sa=D" =
      "https://example.com/a" := by
  refine ⟨?_, ?_, by decide⟩
  · rintro ⟨hh, hp⟩
    have hb : (strLower (urlparseM href).netloc == "www.google.com" ||
        strLower (urlparseM href).netloc == "google.com") = true := by
      rcases hh with h | h <;> simp [h]
    unfold unwrap_google_redirect c4Expected
    simp only [hb, Bool.not_true, Bool.false_eq_true, if_false]
    rw [if_neg (by simp [hp])]
    cases hu : qsLookup (parseQslM (urlparseM href).query) "url" <;>
      cases hq : qsLookup (parseQslM (urlparseM href).query) "q" <;>
        simp [hu, hq, Option.orElse]
  · intro hng
    unfold unwrap_google_redirect
    by_cases hb : (strLower (urlparseM href).netloc == "www.google.com" ||
        strLower (urlparseM href).netloc == "google.com") = true
    · have hp : (urlparseM href).path ≠ "/url" := by
        intro hpath
        refine hng ⟨?_, hpath⟩
        rcases Bool.or_eq_true_iff.mp hb with h | h
        · exact Or.inl (by simpa using h)
        · exact Or.inr (by simpa using h)
      simp [hb, hp]
    · simp [hb]

/-- Witness for C4: a concrete gateway link carrying both `url` and `q`
parameters; the percent-decoded `url` parameter wins. -/
theorem C4_witness :
    unwrap_google_redirect "https://www.google.com/url?url=https%3A%2F%2Fe.com%2Fx&q=y" =
      "https://e.com/x" := by
  have h := (C4_unwrap_google_redirect_correct
    "https://www.google.com/url?url=https%3A%2F%2Fe.com%2Fx&q=y").1 (by decide)
  rw [h]; decide

/-! ### Claim C5 -/

/-- Counterexample to claim C5 as stated: on the page `c5Doc` with base URL
`https://example.org/page`, the claim's described extractor rejects the
call-to-action anchor (its host `www.google.com` is an aggregator host) and
resolves `/a/b` against the base URL to `https://example.org/a/b`, while the
code accepts the call-to-action anchor (it only excludes `news.google.com`)
and would have resolved `/a/b` against `https://news.google.com`. -/
theorem C5_counterexample :
    ¬ ∀ (d : PubDoc) (baseUrl : String),
        extract_publisher_url_from_google_news d baseUrl = c5Claimed d baseUrl := by
  intro hAll
  have h := hAll c5Doc "https://example.org/page"
  rw [show extract_publisher_url_from_google_news c5Doc "https://example.org/page" =
    some "https://www.google.com/search?q=x" from by decide] at h
  rw [show c5Claimed c5Doc "https://example.org/page" =
    some "https://example.org/a/b" from by decide] at h
  exact absurd h (by decide)

/-- Claim C5 as amended: the extractor tries, in order and first match wins:
(1) a call-to-action anchor whose unwrapped href starts with `http` and has a
nonempty host other than `news.google.com` (hosts on other aggregator domains,
e.g. `www.google.com`, are accepted); (2) a canonical link whose stripped href
starts with `http` and whose netloc does not contain `news.google.com`; (3)
among anchors with a nonempty stripped href — where hrefs starting with `./`
are resolved against the base URL, hrefs starting with `/` are resolved
against `https://news.google.com`, and other hrefs are left as-is, then passed
through the unwrapping helper — the first qualifying href (starts with `http`,
nonempty host other than `news.google.com`) whose parsed path is longer than
one character, else the first qualifying href in document order; `none` when
nothing matches. -/
theorem C5_publisher_extractor_amended (d : PubDoc) (baseUrl : String) :
    extract_publisher_url_from_google_news d baseUrl =
      ((gnStrat1 d.anchors).orElse fun _ =>
        ((gnStrat2 d.canonical).orElse fun _ =>
          ((gnStrat3First baseUrl d.anchors).orElse fun _ =>
            (gnStrat3Acc baseUrl d.anchors).head?))) := by
  unfold extract_publisher_url_from_google_news
  cases gnStrat1 d.anchors with
  | some h => simp [Option.orElse]
  | none =>
    cases gnStrat2 d.canonical with
    | some h => simp [Option.orElse]
    | none =>
      rw [gnStrat3Go_eq baseUrl d.anchors []]
      cases gnStrat3First baseUrl d.anchors <;> simp [Option.orElse]


theorem foldl_pick_mem (rest : List String) : forall acc : String,
    rest.foldl (fun best x => if best.length < x.length then x else best) acc = acc ∨
    rest.foldl (fun best x => if best.length < x.length then x else best) acc ∈ rest := by
  induction rest with
  | nil => intro acc; exact Or.inl rfl
  | cons y rest ih =>
    intro acc
    simp only [List.foldl_cons]
    by_cases h : acc.length < y.length
    · rw [if_pos h]
      rcases ih y with h2 | h2
      · exact Or.inr (by rw [h2]; exact List.mem_cons_self _ _)
      · exact Or.inr (List.mem_cons_of_mem _ h2)
    · rw [if_neg h]
      rcases ih acc with h2 | h2
      · exact Or.inl h2
      · exact Or.inr (List.mem_cons_of_mem _ h2)

theorem foldl_pick_ge (rest : List String) : forall acc : String,
    acc.length ≤ ((rest.foldl (fun best x => if best.length < x.length then x else best) acc)).length ∧
    forall t, t ∈ rest ->
      t.length ≤ ((rest.foldl (fun best x => if best.length < x.length then x else best) acc)).length := by
  induction rest with
  | nil =>
    intro acc
    exact ⟨Nat.le_refl _, fun t ht => absurd ht (List.not_mem_nil t)⟩
  | cons y rest ih =>
    intro acc
    simp only [List.foldl_cons]
    by_cases h : acc.length < y.length
    · rw [if_pos h]
      refine ⟨Nat.le_trans (Nat.le_of_lt h) (ih y).1, ?_⟩
      intro t ht
      rcases List.mem_cons.mp ht with rfl | ht
      · exact (ih t).1
      · exact (ih y).2 t ht
    · rw [if_neg h]
      refine ⟨(ih acc).1, ?_⟩
      intro t ht
      rcases List.mem_cons.mp ht with rfl | ht
      · exact Nat.le_trans (Nat.le_of_not_lt h) (ih acc).1
      · exact (ih acc).2 t ht

theorem pickLongest_spec (l : List String) (b : String) (h : pickLongest l = some b) :
    b ∈ l ∧ forall t, t ∈ l -> t.length ≤ b.length := by
  cases l with
  | nil => simp [pickLongest] at h
  | cons t rest =>
    simp only [pickLongest, Option.some.injEq] at h
    subst h
    constructor
    · rcases foldl_pick_mem rest t with h | h
      · rw [h]; exact List.mem_cons_self _ _
      · exact List.mem_cons_of_mem _ h
    · intro x hx
      rcases List.mem_cons.mp hx with rfl | hx
      · exact (foldl_pick_ge rest x).1
      · exact (foldl_pick_ge rest t).2 x hx

/-- Counterexample to claim C6 as stated: the claim says that (engine yielding
nothing) the output for a document containing an `<article>` equals the
normalized text of that element with scripts, styles, nav, header, footer and
aside removed — but the code also removes `noscript` elements.  On
`c6Doc` (an article holding a text node "A" and a `<noscript>` with text "B")
the code yields "A" while the claim's formula yields "A\nB". -/
theorem C6_counterexample :
    ¬ forall (doc : List HNode) (a : HNode), findTagList "article" doc = some a ->
        extract_main_text none doc =
          normalize_space (getTextN ((stripTags c6ClaimTags a).getD (.text ""))) := by
  intro hAll
  have h := hAll c6Doc (.elem "article" [.text "A", .elem "noscript" [.text "B"]]) rfl
  rw [show extract_main_text none c6Doc = "A" from rfl] at h
  rw [show normalize_space (getTextN ((stripTags c6ClaimTags
    (.elem "article" [.text "A", .elem "noscript" [.text "B"]])).getD (.text ""))) =
    "A\nB" from rfl] at h
  exact absurd h (by decide)

/-- Claim C6 as amended: when the specialized engine yields nothing, the
extractor decomposes script, style, noscript, nav, header, footer and aside
elements, and then: if the stripped document still contains an `<article>`
element, the output is the normalized text of the first one; otherwise the
longest `<main>`/`<div>`/`<section>` candidate of normalized length at least
800 (earliest among ties); otherwise the `<body>` text; otherwise the empty
string — never a failure of the overall operation. -/
theorem C6_content_extractor_amended (engine : Option String) (doc : List HNode)
    (heng : engine = none ∨ engine = some "") :
    (forall a, findTagList "article" (stripTagsList badTags doc) = some a ->
        extract_main_text engine doc = normalize_space (getTextN a)) ∧
    (findTagList "article" (stripTagsList badTags doc) = none ->
      forall best, pickLongest (c6Candidates (stripTagsList badTags doc)) = some best ->
        extract_main_text engine doc = best ∧
        best ∈ c6Candidates (stripTagsList badTags doc) ∧
        800 ≤ best.length ∧
        forall t, t ∈ c6Candidates (stripTagsList badTags doc) -> t.length ≤ best.length) ∧
    (findTagList "article" (stripTagsList badTags doc) = none ->
      pickLongest (c6Candidates (stripTagsList badTags doc)) = none ->
      forall b, findTagList "body" (stripTagsList badTags doc) = some b ->
        extract_main_text engine doc = normalize_space (getTextN b)) ∧
    (findTagList "article" (stripTagsList badTags doc) = none ->
      pickLongest (c6Candidates (stripTagsList badTags doc)) = none ->
      findTagList "body" (stripTagsList badTags doc) = none ->
        extract_main_text engine doc = "") := by
  have hred : extract_main_text engine doc = extractFallback doc := by
    rcases heng with rfl | rfl <;> simp [extract_main_text]
  refine ⟨?_, ?_, ?_, ?_⟩
  · intro a ha
    rw [hred, extractFallback]
    simp only [ha]
  · intro ha best hbest
    have hs := pickLongest_spec _ _ hbest
    refine ⟨?_, hs.1, ?_, hs.2⟩
    · rw [hred, extractFallback]
      simp only [ha, hbest]
    · simpa using (List.mem_filter.mp hs.1).2
  · intro ha hcand b hb
    rw [hred, extractFallback]
    simp only [ha, hcand, hb]
  · intro ha hcand hb
    rw [hred, extractFallback]
    simp only [ha, hcand, hb]

/-- Witness for the amended C6: a plain `<article>` document, engine absent;
the extractor returns the article's normalized text. -/
theorem C6_witness : extract_main_text none c6WDoc = "hi" := by
  have h := (C6_content_extractor_amended none c6WDoc (Or.inl rfl)).1
    (.elem "article" [.text "hi"]) rfl
  rw [h]
  rfl


theorem fetchGo_spec (maxBytes : Nat) :
    forall (chunks : List (List Nat)) (total : Nat) (acc : List (List Nat)),
    (forall c, c ∈ chunks -> c.length ≤ 65536) -> total ≤ maxBytes ->
    ((maxBytes < total + sumLens chunks ->
        (fetchGo maxBytes chunks total acc).2 = .error "response too large") ∧
     (forall t, t ∈ (fetchGo maxBytes chunks total acc).1 -> t ≤ maxBytes + 65536)) := by
  intro chunks
  induction chunks with
  | nil =>
    intro total acc _ htot
    constructor
    · intro hov
      simp [sumLens] at hov
      omega
    · intro t ht
      simp [fetchGo] at ht
  | cons ch rest ih =>
    intro total acc hc htot
    have hch : ch.length ≤ 65536 := hc ch (List.mem_cons_self _ _)
    have hcrest : forall c, c ∈ rest -> c.length ≤ 65536 :=
      fun c h => hc c (List.mem_cons_of_mem _ h)
    by_cases he : ch.isEmpty = true
    · have hlen : ch.length = 0 := List.isEmpty_iff_length_eq_zero.mp he
      have heq : fetchGo maxBytes (ch :: rest) total acc = fetchGo maxBytes rest total acc := by
        simp [fetchGo, he]
      rw [heq]
      have hsum : sumLens (ch :: rest) = sumLens rest := by
        simp [sumLens, hlen]
      rw [hsum]
      exact ih total acc hcrest htot
    · by_cases hov : maxBytes < total + ch.length
      · have heq : fetchGo maxBytes (ch :: rest) total acc =
            ([total + ch.length], .error "response too large") := by
          simp [fetchGo, he, hov]
        rw [heq]
        constructor
        · intro _; rfl
        · intro t ht
          simp at ht
          omega
      · have heq : fetchGo maxBytes (ch :: rest) total acc =
            ((total + ch.length) :: (fetchGo maxBytes rest (total + ch.length) (ch :: acc)).1,
             (fetchGo maxBytes rest (total + ch.length) (ch :: acc)).2) := by
          simp [fetchGo, he, hov]
        rw [heq]
        have hih := ih (total + ch.length) (ch :: acc) hcrest (by omega)
        constructor
        · intro hov2
          apply hih.1
          have : sumLens (ch :: rest) = ch.length + sumLens rest := by simp [sumLens]
          omega
        · intro t ht
          rcases List.mem_cons.mp ht with rfl | ht
          · omega
          · exact hih.2 t ht

/-- Claim C2 (status: confirmed).  For every chunk stream (each chunk at most
the 64 KiB read size) whose total size exceeds `maxBytes`, the Fetcher's body
read aborts with the oversized-response error — the declared `Content-Length`
does not appear in the read at all — and every accumulated byte total observed
at a size check is at most `maxBytes + 65536`. -/
theorem C2_fetcher_cap (maxBytes : Nat) (chunks : List (List Nat))
    (hc : forall c, c ∈ chunks -> c.length ≤ 65536) :
    (maxBytes < sumLens chunks -> fetchBody maxBytes chunks = .error "response too large") ∧
    (forall t, t ∈ fetchTotals maxBytes chunks -> t ≤ maxBytes + 65536) := by
  have h := fetchGo_spec maxBytes chunks 0 [] hc (Nat.zero_le _)
  exact ⟨fun hov => h.1 (by simpa using hov), h.2⟩

/-- Witness for C2: cap 3 bytes, chunks of 2 and 3 bytes. -/
theorem C2_witness :
    fetchBody 3 [[1, 2], [3, 4, 5]] = .error "response too large" ∧
    (forall t, t ∈ fetchTotals 3 [[1, 2], [3, 4, 5]] -> t ≤ 3 + 65536) := by
  have h := C2_fetcher_cap 3 [[1, 2], [3, 4, 5]] (by decide)
  exact ⟨h.1 (by decide), h.2⟩

/-- Counterexample to claim C3 as stated: a response declaring an empty
content-type is not in the HTML/XHTML/XML family, yet the Fetcher accepts it —
the check `if ctype and (...)` is skipped entirely for a falsy value. -/
theorem C3_counterexample :
    ¬ forall (c : String), htmlFamilySpec (strLower c) = false -> contentTypeCheck (some c) ≠ none := by
  intro hAll
  exact hAll "" (by decide) (by decide)

/-- Claim C3 as amended: the fetch passes the content-type validation exactly
when the declared content-type (absent defaulting to empty, lowercased) is
empty or contains one of `text/html`, `application/xhtml+xml`,
`application/xml` as a substring; every other declared content-type raises the
unsupported-content-type error. -/
theorem C3_content_type_amended (raw : Option String) :
    contentTypeCheck raw = none ↔
      (strLower (raw.getD "") = "" ∨
       strContainsStr (strLower (raw.getD "")) "text/html" = true ∨
       strContainsStr (strLower (raw.getD "")) "application/xhtml+xml" = true ∨
       strContainsStr (strLower (raw.getD "")) "application/xml" = true) := by
  unfold contentTypeCheck
  dsimp only
  by_cases h0 : strLower (raw.getD "") = "" <;>
    by_cases h1 : strContainsStr (strLower (raw.getD "")) "text/html" = true <;>
      by_cases h2 : strContainsStr (strLower (raw.getD "")) "application/xhtml+xml" = true <;>
        by_cases h3 : strContainsStr (strLower (raw.getD "")) "application/xml" = true <;>
          simp [h0, h1, h2, h3]

/-- Claim C8 (status: confirmed).  In the translation stage, the site and
author fields are returned untouched under every input; a title translation
failure leaves the title at its pre-translation value; a failure of any text
chunk leaves the whole text at its pre-translation value.  The stage is a
total function — per-field failures never abort the overall operation. -/
theorem C8_translator_fault_tolerance (tr : String -> Option String)
    (targetLang lang : Option String) (title text site : String) (author : Option String) :
    (translateStage tr targetLang lang title text site author).2.2.1 = site ∧
    (translateStage tr targetLang lang title text site author).2.2.2 = author ∧
    (tr title = none -> (translateStage tr targetLang lang title text site author).1 = title) ∧
    (translateChunks tr (chunkText text) = none ->
      (translateStage tr targetLang lang title text site author).2.1 = text) := by
  unfold translateStage
  by_cases hact : translationActivated targetLang lang = true
  · rw [if_pos hact]
    refine ⟨rfl, rfl, ?_, ?_⟩
    · intro htr
      unfold translateStageActive translateField
      by_cases ht : title = ""
      · simp [ht]
      · simp [ht, htr]
    · intro hmap
      unfold translateStageActive
      by_cases hx : text = ""
      · simp [hx]
      · simp [hx, hmap]
  · rw [if_neg hact]
    exact ⟨rfl, rfl, fun _ => rfl, fun _ => rfl⟩

/-- Witness for C8: an engine that always raises leaves all fields unchanged. -/
theorem C8_witness :
    translateStage (fun _ => none) (some "en") none "t" "x" "s" (some "a") =
      ("t", "x", "s", some "a") := by
  have h := C8_translator_fault_tolerance (fun _ => none) (some "en") none "t" "x" "s" (some "a")
  have h3 := h.2.2.1 rfl
  have h4 := h.2.2.2 (by rfl)
  rw [Prod.ext_iff]
  refine ⟨h3, ?_⟩
  rw [Prod.ext_iff]
  refine ⟨h4, ?_⟩
  rw [Prod.ext_iff]
  exact ⟨h.1, h.2.1⟩

/-- Claim C10 (status: confirmed).  For every nonempty requested target
language and an absent detected language, the translation stage is activated —
an absent detected language compares unequal to every requested target — and
the stage takes the active branch that attempts the title and text
translations. -/
theorem C10_absent_lang_triggers_translation (t : String) (ht : t ≠ "")
    (tr : String -> Option String) (title text site : String) (author : Option String) :
    translationActivated (some t) none = true ∧
    translateStage tr (some t) none title text site author =
      ((translateStageActive tr title text).1, (translateStageActive tr title text).2,
        site, author) := by
  have hact : translationActivated (some t) none = true := by
    simp [translationActivated, ht]
  refine ⟨hact, ?_⟩
  unfold translateStage
  simp only [hact, if_true]

/-- Witness for C10: target `en`, detected language absent. -/
theorem C10_witness :
    translationActivated (some "en") none = true ∧
    translateStage (fun s => some s) (some "en") none "t" "x" "s" (some "a") =
      ("t", "x", "s", some "a") := by
  have h := C10_absent_lang_triggers_translation "en" (by decide) (fun s => some s)
    "t" "x" "s" (some "a")
  refine ⟨h.1, ?_⟩
  rw [h.2]
  rfl

/-- Counterexample to claim C9 as stated: the claim requires the non-zero exit
codes to distinguish the HTTP-error, timeout and other-failure classes, but
every failure handler returns 2 — an HTTP 404 and a timeout are different
classes with the same exit code. -/
theorem C9_counterexample :
    ¬ forall (o₁ o₂ : FetchOutcome), envelopeOk o₁ = false -> envelopeOk o₂ = false ->
        outcomeClass o₁ ≠ outcomeClass o₂ -> exitCode o₁ ≠ exitCode o₂ := by
  intro hAll
  exact hAll (.httpError 404 "Not Found") .timeoutErr rfl rfl (by decide) rfl

/-- Claim C9 as amended: the exit status is 0 exactly when a success envelope
is emitted and 2 on every failure; the failure classes are not distinguished
by the exit code (they are distinguished by the error message string of the
failure envelope). -/
theorem C9_exit_code_amended (o : FetchOutcome) :
    (exitCode o = 0 ↔ envelopeOk o = true) ∧ (envelopeOk o = false -> exitCode o = 2) ∧
    (envelopeOk o = true ↔ errorMessage o = none) := by
  cases o <;> simp [exitCode, envelopeOk, errorMessage]

/-- Witness for the amended C9: a timeout exits with status 2. -/
theorem C9_witness : exitCode .timeoutErr = 2 :=
  (C9_exit_code_amended .timeoutErr).2.1 rfl

end NewsCheck
